import Mathlib

/-!
Shallow embedding of the DLT (Diagnostic Log and Trace) reader/filter
`dlt-kraken` (Rust), covering:

* `src/dlt/headers.rs`: `read_storage_header`, `read_standard_header`,
  `read_extended_header` and the flag predicates on the decoded headers;
* `src/dlt/payload.rs`: the typed payload-argument decoder
  (`PayloadIter::read_argument` and its per-kind readers);
* `src/dlt.rs`: the message iterator (`TraceDataIter::read_message`,
  `TraceDataIter::next`) and the match/projection driver `run_dlt`;
* `src/dlt/filter.rs`: the identifier predicates `Filter::filter_ecu_id`,
  `Filter::filter_app_id`, `Filter::filter_context_id` and
  `Filter::find_patterns`.

Modelling conventions:

* The byte buffer is a `List Nat`; each entry stands for one `u8` of the
  memory-mapped input (values < 256 in every concrete input).
* Rust slice indexing and `panic!` abort the surrounding computation; all
  decoders therefore return `Option`, with `none` standing for a panic
  (out-of-bounds slice, bad magic, or debug-mode arithmetic underflow).
* Rust `&str` values are kept as their UTF-8 byte lists; `str::from_utf8`
  decoding (and its `unwrap` on invalid UTF-8) is not modelled, so string
  equality is byte equality.  `trim_matches(char::from(0))` on such a view
  is exactly byte-level trimming of `0x00` at both ends, since NUL is a
  one-byte UTF-8 scalar and continuation bytes are never `0x00`.
* The regex engine (`regex` crate) is an external dependency; a compiled
  `Pattern` is modelled by its observable `captures` function mapping a
  string to `none` ("no configured pattern matches with captures", the
  source's `Pattern::captures` returning `None`) or to the list of capture
  bundles.
-/

namespace DltKraken

/-- `is_bit_set!(value, mask)` from `src/dlt/headers.rs`:
`value & mask == mask`. -/
def isBitSet (value mask : Nat) : Bool :=
  value &&& mask == mask

/-- Rust slice `&data[i .. i + n]`; `none` models the out-of-bounds panic. -/
def readBytes (data : List Nat) (i n : Nat) : Option (List Nat) :=
  if i + n ≤ data.length then some ((data.drop i).take n) else none

/-- Single byte `data[i]`; `none` models the out-of-bounds panic. -/
def readByte (data : List Nat) (i : Nat) : Option Nat :=
  data.get? i

/-- `u16::from_be_bytes` on a two-byte slice. -/
def u16be : List Nat → Nat
  | [b0, b1] => b0 * 256 + b1
  | _ => 0

/-- `u16::from_le_bytes` on a two-byte slice. -/
def u16le : List Nat → Nat
  | [b0, b1] => b1 * 256 + b0
  | _ => 0

/-- `u32::from_be_bytes` on a four-byte slice. -/
def u32be : List Nat → Nat
  | [b0, b1, b2, b3] => ((b0 * 256 + b1) * 256 + b2) * 256 + b3
  | _ => 0

/-- `u32::from_le_bytes` on a four-byte slice. -/
def u32le : List Nat → Nat
  | [b0, b1, b2, b3] => ((b3 * 256 + b2) * 256 + b1) * 256 + b0
  | _ => 0

/-- `ByteConverter::u16_from_bytes`: the selected byte order applied to a
two-byte slice (`true` = `FromBigEndian`). -/
def u16o (bigEndian : Bool) (l : List Nat) : Nat :=
  if bigEndian then u16be l else u16le l

/-- `ByteConverter::u32_from_bytes`: the selected byte order applied to a
four-byte slice (`true` = `FromBigEndian`). -/
def u32o (bigEndian : Bool) (l : List Nat) : Nat :=
  if bigEndian then u32be l else u32le l

/-- `str::trim_matches(char::from(0))`: strips NUL bytes from BOTH ends of
the view (leading and trailing). -/
def trimNul (l : List Nat) : List Nat :=
  ((l.dropWhile (fun b => b == 0)).reverse.dropWhile (fun b => b == 0)).reverse

/-- Follows the spec's words only (for comparison with the source): strip
trailing NUL bytes, and only trailing ones. -/
def trimTrailingNul (l : List Nat) : List Nat :=
  (l.reverse.dropWhile (fun b => b == 0)).reverse

/-- `StorageHeader` from `src/dlt/headers.rs`; the `ecu` string is kept as
its (trimmed) byte list. -/
structure StorageHeader where
  timestamp_sec : Nat
  timestamp_usec : Nat
  ecu : List Nat
  deriving Repr, DecidableEq

/-- `StandardHeader` from `src/dlt/headers.rs`. -/
structure StandardHeader where
  htyp : Nat
  counter : Nat
  msg_length : Nat
  ecu_id : Option (List Nat)
  session_id : Option Nat
  timestamp : Option Nat
  length : Nat
  deriving Repr, DecidableEq

/-- `ExtendedHeader` from `src/dlt/headers.rs`. -/
structure ExtendedHeader where
  msg_info : Nat
  num_of_args : Nat
  app_id : List Nat
  context_id : List Nat
  length : Nat
  deriving Repr, DecidableEq

/-- `StandardHeader::has_extended_header` (HTYP bit mask `0x01`). -/
def StandardHeader.has_extended_header (h : StandardHeader) : Bool :=
  isBitSet h.htyp 0x01

/-- `StandardHeader::is_big_endian` (HTYP bit mask `0x02`). -/
def StandardHeader.is_big_endian (h : StandardHeader) : Bool :=
  isBitSet h.htyp 0x02

/-- `StandardHeader::has_ecu_id` (HTYP bit mask `0x04`). -/
def StandardHeader.has_ecu_id (h : StandardHeader) : Bool :=
  isBitSet h.htyp 0x04

/-- `StandardHeader::has_session_id` (HTYP bit mask `0x08`). -/
def StandardHeader.has_session_id (h : StandardHeader) : Bool :=
  isBitSet h.htyp 0x08

/-- `StandardHeader::has_timestamp` (HTYP bit mask `0x10`). -/
def StandardHeader.has_timestamp (h : StandardHeader) : Bool :=
  isBitSet h.htyp 0x10

/-- `ExtendedHeader::is_verbose` (`MSG_INFO_VERBOSE_BIT_MASK = 0x01`). -/
def ExtendedHeader.is_verbose (h : ExtendedHeader) : Bool :=
  isBitSet h.msg_info 0x01

/-- `DLT_STORAGE_START_PATTERN` = `[0x44, 0x4C, 0x54, 0x01]` ("DLT\x01"). -/
def dltStoragePattern : List Nat := [0x44, 0x4C, 0x54, 0x01]

/-- `read_storage_header` from `src/dlt/headers.rs`: 4-byte magic pattern
(`panic!` on mismatch, modelled as `none`), big-endian seconds and
microseconds, 4-byte NUL-trimmed ECU name; advances the index by 16. -/
def read_storage_header (data : List Nat) (idx : Nat) :
    Option (StorageHeader × Nat) := do
  let pat ← readBytes data idx 4
  if pat ≠ dltStoragePattern then
    none
  else
    let secBytes ← readBytes data (idx + 4) 4
    let usecBytes ← readBytes data (idx + 8) 4
    let ecuBytes ← readBytes data (idx + 12) 4
    pure (⟨u32be secBytes, u32be usecBytes, trimNul ecuBytes⟩, idx + 16)

/-- `read_standard_header` from `src/dlt/headers.rs`: HTYP byte, counter
byte, big-endian 16-bit `msg_length`, then the conditional ECU id, session
id and timestamp fields in order; `length` records the bytes consumed. -/
def read_standard_header (data : List Nat) (idx : Nat) :
    Option (StandardHeader × Nat) := do
  let htyp ← readByte data idx
  let counter ← readByte data (idx + 1)
  let lenBytes ← readBytes data (idx + 2) 2
  let msgLength := u16be lenBytes
  let off0 := idx + 4
  let (ecuId, off1) ←
    if isBitSet htyp 0x04 then do
      let b ← readBytes data off0 4
      pure (some (trimNul b), off0 + 4)
    else
      pure ((none : Option (List Nat)), off0)
  let (sessionId, off2) ←
    if isBitSet htyp 0x08 then do
      let b ← readBytes data off1 4
      pure (some (u32be b), off1 + 4)
    else
      pure ((none : Option Nat), off1)
  let (timestamp, off3) ←
    if isBitSet htyp 0x10 then do
      let b ← readBytes data off2 4
      pure (some (u32be b), off2 + 4)
    else
      pure ((none : Option Nat), off2)
  pure (⟨htyp, counter, msgLength, ecuId, sessionId, timestamp, off3 - idx⟩,
    off3)

/-- `read_extended_header` from `src/dlt/headers.rs`: MSIN byte, argument
count byte (read only in verbose mode, forced to zero otherwise), 4-byte
NUL-trimmed app id and context id; always consumes 10 bytes. -/
def read_extended_header (data : List Nat) (idx : Nat) :
    Option (ExtendedHeader × Nat) := do
  let msgInfo ← readByte data idx
  let numArguments ←
    if isBitSet msgInfo 0x01 then readByte data (idx + 1) else pure 0
  let appBytes ← readBytes data (idx + 2) 4
  let ctxBytes ← readBytes data (idx + 6) 4
  pure (⟨msgInfo, numArguments, trimNul appBytes, trimNul ctxBytes, 10⟩,
    idx + 10)

/-- `Value` from `src/dlt/payload.rs`.  Strings are kept as byte lists.
`Float32`/`Float64` are never produced (`read_float` returns `None`) and
are omitted.  `nonVerbose` is modelled from the spec: `read_non_verbose`
is called from `read_message` but absent from the sources; per the spec a
non-verbose payload is a 32-bit message id followed by the remaining raw
bytes, exposed as a single value. -/
inductive Value where
  | bool (b : Bool)
  | sint8 (v : Int)
  | sint16 (v : Int)
  | sint32 (v : Int)
  | sint64 (v : Int)
  | sint128 (v : Int)
  | uint8 (v : Nat)
  | uint16 (v : Nat)
  | uint32 (v : Nat)
  | uint64 (v : Nat)
  | uint128 (v : Nat)
  | string (s : List Nat)
  | traceData (s : List Nat)
  | nonVerbose (id : Nat) (bytes : List Nat)
  deriving Repr, DecidableEq

/-- Reassemble a `w`-byte unsigned value from a slice in the converter's
byte order (`ByteConverter::uN_from_bytes` for N = 8w). -/
def uWordo (bigEndian : Bool) (l : List Nat) : Nat :=
  if bigEndian then
    l.foldl (fun acc b => acc * 256 + b) 0
  else
    l.foldr (fun b acc => acc * 256 + b) 0

/-- Two's-complement reading of a `w`-byte unsigned value as a signed
integer (`iN::from_be_bytes` / `from_le_bytes`). -/
def toSigned (bytes : Nat) (v : Nat) : Int :=
  if v < 2 ^ (8 * bytes - 1) then (v : Int) else (v : Int) - 2 ^ (8 * bytes)

/-- Outcome of `PayloadIter::read_argument`: a Rust panic (out-of-bounds
slice), a graceful `None` (unsupported/undecoded kind, which stops the
argument `for` loop), or a decoded value with the advanced index. -/
inductive ArgResult where
  | panic
  | unsupported
  | value (v : Value) (next : Nat)
  deriving Repr, DecidableEq

/-- `PayloadIter::read_bool`: only `TypeLength::Bits8` is decoded; the
value is `byte == 0x1`. -/
def read_bool (data : List Nat) (idx tyle : Nat) : ArgResult :=
  if tyle = 1 then
    match readByte data idx with
    | none => .panic
    | some b => .value (.bool (b == 1)) (idx + 1)
  else
    .unsupported

/-- `PayloadIter::read_signed`: dispatch on `TypeLength`, two's-complement
decode in the converter's byte order. -/
def read_signed (bigEndian : Bool) (data : List Nat) (idx tyle : Nat) :
    ArgResult :=
  let readAt (n : Nat) (mk : Int → Value) : ArgResult :=
    match readBytes data idx n with
    | none => .panic
    | some bs => .value (mk (toSigned n (uWordo bigEndian bs))) (idx + n)
  match tyle with
  | 1 => readAt 1 Value.sint8
  | 2 => readAt 2 Value.sint16
  | 3 => readAt 4 Value.sint32
  | 4 => readAt 8 Value.sint64
  | 5 => readAt 16 Value.sint128
  | _ => .unsupported

/-- `PayloadIter::read_unsigned`: dispatch on `TypeLength`, unsigned
decode in the converter's byte order. -/
def read_unsigned (bigEndian : Bool) (data : List Nat) (idx tyle : Nat) :
    ArgResult :=
  let readAt (n : Nat) (mk : Nat → Value) : ArgResult :=
    match readBytes data idx n with
    | none => .panic
    | some bs => .value (mk (uWordo bigEndian bs)) (idx + n)
  match tyle with
  | 1 => readAt 1 Value.uint8
  | 2 => readAt 2 Value.uint16
  | 3 => readAt 4 Value.uint32
  | 4 => readAt 8 Value.uint64
  | 5 => readAt 16 Value.uint128
  | _ => .unsupported

/-- `PayloadIter::read_string`: a 16-bit length `L` in the message byte
order, then exactly `L` bytes, exposed with NUL bytes trimmed from both
ends (`trim_matches(char::from(0))`). -/
def read_string (bigEndian : Bool) (data : List Nat) (idx : Nat) :
    ArgResult :=
  match readBytes data idx 2 with
  | none => .panic
  | some lenBytes =>
    let strLen := u16o bigEndian lenBytes
    match readBytes data (idx + 2) strLen with
    | none => .panic
    | some strBytes => .value (.string (trimNul strBytes)) (idx + 2 + strLen)

/-- `PayloadIter::read_trace_info`: same layout as `read_string`, yielding
a `TraceData` value. -/
def read_trace_info (bigEndian : Bool) (data : List Nat) (idx : Nat) :
    ArgResult :=
  match readBytes data idx 2 with
  | none => .panic
  | some lenBytes =>
    let strLen := u16o bigEndian lenBytes
    match readBytes data (idx + 2) strLen with
    | none => .panic
    | some strBytes =>
      .value (.traceData (trimNul strBytes)) (idx + 2 + strLen)

/-- `PayloadIter::read_argument`: read the 32-bit type-info word in the
message byte order, classify by the first set type bit in the priority
order BOOL, SINT, UINT, FLOA, ARAY, STRG, RAWD, TRAI, STRU (the `match`
arm order of `impl From<u32> for Type`), and dispatch.  `read_float`,
`read_array`, `read_rawdata`, `read_struct` and the reserved case all
return `None` in the source. -/
def read_argument (bigEndian : Bool) (data : List Nat) (idx : Nat) :
    ArgResult :=
  match readBytes data idx 4 with
  | none => .panic
  | some tiBytes =>
    let ti := u32o bigEndian tiBytes
    let tyle := ti &&& 0x0F
    let off := idx + 4
    if isBitSet ti 0x0010 then read_bool data off tyle
    else if isBitSet ti 0x0020 then read_signed bigEndian data off tyle
    else if isBitSet ti 0x0040 then read_unsigned bigEndian data off tyle
    else if isBitSet ti 0x0080 then .unsupported
    else if isBitSet ti 0x0100 then .unsupported
    else if isBitSet ti 0x0200 then read_string bigEndian data off
    else if isBitSet ti 0x0400 then .unsupported
    else if isBitSet ti 0x2000 then read_trace_info bigEndian data off
    else if isBitSet ti 0x4000 then .unsupported
    else .unsupported

/-- The `for arg in &payload` loop of `read_message` over
`PayloadIter::next`: up to `count` arguments are read; a graceful `None`
from `read_argument` stops the loop with the values collected so far, a
panic aborts the whole record. -/
def collectArgs (bigEndian : Bool) (data : List Nat) :
    Nat → Nat → Option (List Value)
  | _, 0 => some []
  | idx, count + 1 =>
    match read_argument bigEndian data idx with
    | .panic => none
    | .unsupported => some []
    | .value v next =>
      (collectArgs bigEndian data next count).map (fun vs => v :: vs)

/-- Modelled from the spec: `Payload::new_non_verbose` /
`Payload::read_non_verbose` are called from `read_message` but missing
from the sources.  Per the spec the non-verbose payload is "a 32-bit
message id followed by the remaining `payload_size - 4` bytes as a raw
value", the id read in the message byte order, exposed as a single
`NonVerbose { id, bytes }` value. -/
def read_non_verbose (bigEndian : Bool) (data : List Nat)
    (idx payloadSize : Nat) : Option Value := do
  if payloadSize < 4 then
    none
  else
    let idBytes ← readBytes data idx 4
    let rest ← readBytes data (idx + 4) (payloadSize - 4)
    pure (.nonVerbose (u32o bigEndian idBytes) rest)

/-- `Message` from `src/dlt.rs`. -/
structure Message where
  storage_header : StorageHeader
  standard_header : StandardHeader
  extended_header : Option ExtendedHeader
  payload : List Value
  deriving Repr, DecidableEq

/-- `TraceDataIter::read_message` from `src/dlt.rs`: storage header, then
(`start_index` = the index right after it) the standard header, the
optional extended header, and the payload.  The payload size is computed
by Rust `usize` subtraction `msg_len() - len() [- ext.len()]`, which in a
debug build panics on underflow (modelled as `none`).  The iterator's
index is finally set to `start_index + msg_len()`. -/
def read_message (data : List Nat) (idx : Nat) : Option (Message × Nat) := do
  let (storageHeader, i1) ← read_storage_header data idx
  let startIndex := i1
  let (standardHeader, i2) ← read_standard_header data i1
  if standardHeader.has_extended_header then
    let (extHeader, i3) ← read_extended_header data i2
    if standardHeader.msg_length < standardHeader.length + extHeader.length
    then
      none
    else
      let payloadSize :=
        standardHeader.msg_length - standardHeader.length - extHeader.length
      let payload ←
        if extHeader.is_verbose then
          collectArgs standardHeader.is_big_endian data i3
            extHeader.num_of_args
        else do
          let v ← read_non_verbose standardHeader.is_big_endian data i3
            payloadSize
          pure [v]
      pure (⟨storageHeader, standardHeader, some extHeader, payload⟩,
        startIndex + standardHeader.msg_length)
  else
    if standardHeader.msg_length < standardHeader.length then
      none
    else
      let payloadSize := standardHeader.msg_length - standardHeader.length
      let v ← read_non_verbose standardHeader.is_big_endian data i2
        payloadSize
      pure (⟨storageHeader, standardHeader, none, [v]⟩,
        startIndex + standardHeader.msg_length)

/-- `TraceDataIter::next` iterated to exhaustion: while `index < len`,
read one message.  `none` models a panic inside `read_message`; the fuel
argument only bounds the recursion and is chosen ample at use sites (the
index strictly increases by at least 16 per record). -/
def iterateMessages (data : List Nat) : Nat → Nat → Option (List Message)
  | _, 0 => none
  | idx, fuel + 1 =>
    if idx < data.length then
      match read_message data idx with
      | none => none
      | some (m, j) =>
        (iterateMessages data j fuel).map (fun ms => m :: ms)
    else
      some []

/-- A capture bundle (`regex::Captures`): the named groups of one pattern
match, as (group name, captured text) pairs. -/
def Caps := List (List Nat × List Nat)
  deriving DecidableEq

/-- `capture.name(name)`: first named group with that name, if any. -/
def capName (c : Caps) (nm : List Nat) : Option (List Nat) :=
  (c.find? (fun p => p.1 == nm)).map (fun p => p.2)

/-- A compiled `Pattern` (`src/dlt/filter.rs`), abstracted over the
external regex engine by its `captures` observable: `none` iff no
configured pattern matches the string with captures (the source's
`Pattern::captures` returning `None`). -/
structure Pattern where
  captures : List Nat → Option (List Caps)

/-- The `Filter` map (`src/dlt/filter.rs`): a `HashMap<FilterId,
FilterType>` holding at most one entry per kind, modelled as one optional
value per kind.  The `Time` kind is declared in the source but consulted
by no predicate, and is omitted. -/
structure Filter where
  ecuId : Option (List Nat) := none
  appId : Option (List Nat) := none
  contextId : Option (List Nat) := none
  patterns : Option Pattern := none

/-- `Filter::filter_ecu_id`: accept iff no EcuId filter is set or its
value equals the storage header's ECU string. -/
def filter_ecu_id (f : Filter) (msg : Message) : Bool :=
  match f.ecuId with
  | some v => v == msg.storage_header.ecu
  | none => true

/-- `Filter::filter_app_id`: a message without an extended header is
accepted outright; otherwise accept iff no AppId filter is set or its
value equals the extended header's app id. -/
def filter_app_id (f : Filter) (msg : Message) : Bool :=
  match msg.extended_header with
  | some extHeader =>
    match f.appId with
    | some v => v == extHeader.app_id
    | none => true
  | none => true

/-- `Filter::filter_context_id`: a message without an extended header is
accepted outright; otherwise accept iff no ContextId filter is set or its
value equals the extended header's context id. -/
def filter_context_id (f : Filter) (msg : Message) : Bool :=
  match msg.extended_header with
  | some extHeader =>
    match f.contextId with
    | some v => v == extHeader.context_id
    | none => true
  | none => true

/-- The payload scan of `Filter::find_patterns`: the first string-typed
value whose `captures` is `some` wins; non-strings are skipped; an
exhausted payload yields `some []`. -/
def findPatternsGo (pat : Pattern) : List Value → Option (List Caps)
  | [] => some []
  | .string s :: rest =>
    match pat.captures s with
    | some cs => some cs
    | none => findPatternsGo pat rest
  | _ :: rest => findPatternsGo pat rest

/-- `Filter::find_patterns`: `none` iff no `Patterns` filter is
configured; otherwise scan the payload's string values. -/
def find_patterns (f : Filter) (msg : Message) : Option (List Caps) :=
  match f.patterns with
  | some pat => findPatternsGo pat msg.payload
  | none => none

/-- `OutputField` from `src/lib.rs`; the capture name is kept as bytes. -/
inductive OutputField where
  | ecu
  | app
  | ctx
  | time
  | timestamp
  | payload
  | capture (name : List Nat)
  deriving Repr, DecidableEq

/-- `Output` from `src/lib.rs`, reduced to what `run_dlt` reads from it:
the delimiter character of the selected sink and the ordered field list. -/
structure Output where
  delimiter : Nat
  fields : List OutputField
  deriving Repr, DecidableEq

/-- The bytes of the literal `"none"` (`default_str` in `run_dlt`). -/
def noneStr : List Nat := [0x6E, 0x6F, 0x6E, 0x65]

/-- The renderings one output field contributes in `run_dlt`, in order;
each is followed by one delimiter in `out_string`.  `Time` and
`Timestamp` are wired to the literal strings `"T"` and `"TS"` in the
source.  `Capture(name)` contributes the value of the named group from
each capture bundle that has it; `Payload` contributes each string-typed
payload value. -/
def fieldItems (field : OutputField) (msg : Message) (caps : List Caps) :
    List (List Nat) :=
  match field with
  | .time => [[0x54]]
  | .timestamp => [[0x54, 0x53]]
  | .app =>
    [match msg.extended_header with
     | some h => h.app_id
     | none => noneStr]
  | .ctx =>
    [match msg.extended_header with
     | some h => h.context_id
     | none => noneStr]
  | .ecu =>
    [match msg.standard_header.ecu_id with
     | some v => v
     | none => noneStr]
  | .capture nm => caps.filterMap (fun c => capName c nm)
  | .payload =>
    msg.payload.filterMap (fun v =>
      match v with
      | .string s => some s
      | _ => none)

/-- `out_string` as built by the field loop of `run_dlt`: for each field
in order, each of its renderings followed by the delimiter. -/
def outString (delim : Nat) (fields : List OutputField) (msg : Message)
    (caps : List Caps) : List Nat :=
  (fields.map (fun f =>
    ((fieldItems f msg caps).map (fun it => it ++ [delim])).flatten)).flatten

/-- `str::trim_end_matches(delimiter)`: remove ALL trailing occurrences
of the delimiter character. -/
def trimEndMatches (delim : Nat) (l : List Nat) : List Nat :=
  (l.reverse.dropWhile (fun c => c == delim)).reverse

/-- The emitted output line of `run_dlt`:
`out_string.trim_end_matches(delimiter)`. -/
def emitLine (delim : Nat) (fields : List OutputField) (msg : Message)
    (caps : List Caps) : List Nat :=
  trimEndMatches delim (outString delim fields msg caps)

/-- The per-message body of the `run_dlt` loop, reduced to the formatted
output line it emits (if any): the message must pass the three identifier
filters; `find_patterns` must return `some` (its bundles are flattened
into `captures`); and an output descriptor must be configured.  The
debug `println!` of the whole message in the `None`-captures branch is
not a formatted output line and is not modelled. -/
def process_message (f : Filter) (out : Option Output) (msg : Message) :
    Option (List Nat) :=
  if filter_ecu_id f msg && filter_app_id f msg && filter_context_id f msg
  then
    match find_patterns f msg with
    | some caps =>
      match out with
      | some o => some (emitLine o.delimiter o.fields msg caps)
      | none => none
    | none => none
  else
    none

/-- The extended-header length consumed for a message (10 when present,
0 otherwise), as it enters the payload-size subtraction of
`read_message`. -/
def extHeaderLen (m : Message) : Nat :=
  match m.extended_header with
  | some e => e.length
  | none => 0

/-! ### Concrete fixtures

A well-formed 35-byte verbose record (storage header with ECU `"ECU1"`,
standard header `HTYP = 0x01` / `msg_length = 19`, verbose extended
header with app `"APP1"`, context `"CTX1"`, one boolean argument), and
variations used to settle the claims. -/

/-- Storage-header bytes: magic, sec = 0, usec = 0, ECU `"ECU1"`. -/
def storageBytes : List Nat :=
  [0x44, 0x4C, 0x54, 0x01, 0, 0, 0, 0, 0, 0, 0, 0, 0x45, 0x43, 0x55, 0x31]

/-- A well-formed single-record buffer (35 bytes). -/
def goodRecord : List Nat :=
  storageBytes ++
  [0x01, 0x00, 0x00, 0x13,
   0x01, 0x01, 0x41, 0x50, 0x50, 0x31, 0x43, 0x54, 0x58, 0x31,
   0x11, 0x00, 0x00, 0x00, 0x01]

/-- The extended header decoded from `goodRecord`. -/
def goodExtHeader : ExtendedHeader :=
  ⟨1, 1, [0x41, 0x50, 0x50, 0x31], [0x43, 0x54, 0x58, 0x31], 10⟩

/-- The message decoded from `goodRecord`. -/
def goodMessage : Message :=
  ⟨⟨0, 0, [0x45, 0x43, 0x55, 0x31]⟩, ⟨1, 0, 19, none, none, none, 4⟩,
   some goodExtHeader, [.bool true]⟩

/-- Seven bytes of trailing garbage (not a storage-header magic). -/
def garbageTail : List Nat := [1, 2, 3, 4, 5, 6, 7]

/-- A record whose `msg_length` (5) is smaller than the 4 standard-header
bytes plus the 10 extended-header bytes it carries. -/
def badLengthRecord : List Nat :=
  storageBytes ++
  [0x01, 0x00, 0x00, 0x05,
   0x00, 0x00, 0x41, 0x50, 0x50, 0x58, 0x43, 0x54, 0x58, 0x58]

/-- Extended-header bytes with the verbose bit clear and argument-count
byte 7. -/
def extBytesNonVerbose : List Nat :=
  [0x00, 0x07, 0x41, 0x50, 0x50, 0x31, 0x43, 0x54, 0x58, 0x31]

/-- The header decoded from `extBytesNonVerbose`. -/
def extHeaderNonVerbose : ExtendedHeader :=
  ⟨0, 0, [0x41, 0x50, 0x50, 0x31], [0x43, 0x54, 0x58, 0x31], 10⟩

/-- A filter on app id `"APP2"` only. -/
def filterAppOnly : Filter := { appId := some [0x41, 0x50, 0x50, 0x32] }

/-- A filter on all three identifiers, matching `goodMessage`. -/
def filterAll : Filter :=
  { ecuId := some [0x45, 0x43, 0x55, 0x31],
    appId := some [0x41, 0x50, 0x50, 0x31],
    contextId := some [0x43, 0x54, 0x58, 0x31] }

/-- A message without an extended header. -/
def msgNoExt : Message :=
  ⟨⟨0, 0, [0x45, 0x43, 0x55, 0x31]⟩, ⟨0x20, 0, 8, none, none, none, 4⟩,
   none, [.nonVerbose 0 []]⟩

/-- A compiled pattern set none of whose patterns ever matches. -/
def patternNoMatch : Pattern := ⟨fun _ => none⟩

/-- A filter holding only `patternNoMatch` as its `Patterns` entry. -/
def filterPatternsOnly : Filter := { patterns := some patternNoMatch }

/-- A message with one string payload argument (`"hi"`). -/
def msgOneString : Message :=
  ⟨⟨0, 0, [0x45, 0x43, 0x55, 0x31]⟩, ⟨0, 0, 9, none, none, none, 4⟩,
   none, [.string [0x68, 0x69]]⟩

/-- An output descriptor: delimiter `,`, single `Ecu` field. -/
def outputEcu : Output := ⟨0x2C, [.ecu]⟩

/-- A message with a standard-header ECU id and no string payload. -/
def msgEcuNoStrings : Message :=
  ⟨⟨0, 0, []⟩, ⟨0, 0, 8, some [0x45, 0x43, 0x55, 0x31], none, none, 4⟩,
   none, [.nonVerbose 0 []]⟩

/-- A message carrying concrete storage and standard-header timestamps
(`sec = 123`, `usec = 456`, `timestamp = 100`). -/
def msgTimed : Message :=
  ⟨⟨123, 456, [0x45, 0x43, 0x55, 0x31]⟩,
   ⟨0x12, 0, 8, none, none, some 100, 8⟩, none, []⟩

/-! ### Helper lemmas -/

theorem read_storage_header_index (data : List Nat) (idx : Nat)
    (sh : StorageHeader) (j : Nat)
    (h : read_storage_header data idx = some (sh, j)) : j = idx + 16 := by
  simp only [read_storage_header, bind, Option.bind_eq_some] at h
  obtain ⟨pat, hpat, h⟩ := h
  split at h
  · exact absurd h (by simp)
  · simp only [Option.bind_eq_some] at h
    obtain ⟨sb, hsb, h⟩ := h
    obtain ⟨ub, hub, h⟩ := h
    obtain ⟨eb, heb, h⟩ := h
    simp only [pure, Option.some.injEq, Prod.mk.injEq] at h
    exact h.2.symm

theorem findPatternsGo_no_match (pat : Pattern) (vs : List Value)
    (h : ∀ s, Value.string s ∈ vs → pat.captures s = none) :
    findPatternsGo pat vs = some [] := by
  induction vs with
  | nil => rfl
  | cons v rest ih =>
    cases v with
    | string s =>
      have hs : pat.captures s = none := h s (List.mem_cons_self _ _)
      simp only [findPatternsGo, hs]
      exact ih (fun t ht => h t (List.mem_cons_of_mem _ ht))
    | bool b => exact ih (fun t ht => h t (List.mem_cons_of_mem _ ht))
    | sint8 x => exact ih (fun t ht => h t (List.mem_cons_of_mem _ ht))
    | sint16 x => exact ih (fun t ht => h t (List.mem_cons_of_mem _ ht))
    | sint32 x => exact ih (fun t ht => h t (List.mem_cons_of_mem _ ht))
    | sint64 x => exact ih (fun t ht => h t (List.mem_cons_of_mem _ ht))
    | sint128 x => exact ih (fun t ht => h t (List.mem_cons_of_mem _ ht))
    | uint8 x => exact ih (fun t ht => h t (List.mem_cons_of_mem _ ht))
    | uint16 x => exact ih (fun t ht => h t (List.mem_cons_of_mem _ ht))
    | uint32 x => exact ih (fun t ht => h t (List.mem_cons_of_mem _ ht))
    | uint64 x => exact ih (fun t ht => h t (List.mem_cons_of_mem _ ht))
    | uint128 x => exact ih (fun t ht => h t (List.mem_cons_of_mem _ ht))
    | traceData s => exact ih (fun t ht => h t (List.mem_cons_of_mem _ ht))
    | nonVerbose i b => exact ih (fun t ht => h t (List.mem_cons_of_mem _ ht))

/-! ### C4: iterator offset invariant -/

/-- C4.  For every record decoded by the message iterator, the offset
after decoding equals the offset at the start of the standard header
(`idx + 16`, right after the 16 storage-header bytes) plus the standard
header's `msg_length`, regardless of how many payload bytes the argument
decoder consumed. -/
theorem read_message_offset (data : List Nat) (idx : Nat) (m : Message)
    (j : Nat) (h : read_message data idx = some (m, j)) :
    j = (idx + 16) + m.standard_header.msg_length := by
  simp only [read_message, bind, Option.bind_eq_some] at h
  obtain ⟨⟨sh, i1⟩, hsh, h⟩ := h
  have hi1 : i1 = idx + 16 := read_storage_header_index data idx sh i1 hsh
  subst hi1
  obtain ⟨⟨std, i2⟩, hstd, h⟩ := h
  split at h
  · simp only [Option.bind_eq_some] at h
    obtain ⟨⟨ext, i3⟩, hext, h⟩ := h
    split at h
    · exact absurd h (by simp)
    · split at h
      · simp only [Option.bind_eq_some] at h
        obtain ⟨pl, hpl, h⟩ := h
        simp only [pure, Option.some.injEq, Prod.mk.injEq] at h
        obtain ⟨hm, hj⟩ := h
        subst hm
        exact hj.symm
      · simp only [Option.bind_eq_some] at h
        obtain ⟨v, hv, h⟩ := h
        obtain ⟨vs, hvs, h⟩ := h
        simp only [pure, Option.some.injEq, Prod.mk.injEq] at h
        obtain ⟨hm, hj⟩ := h
        subst hm
        exact hj.symm
  · split at h
    · exact absurd h (by simp)
    · simp only [Option.bind_eq_some] at h
      obtain ⟨v, hv, h⟩ := h
      simp only [pure, Option.some.injEq, Prod.mk.injEq] at h
      obtain ⟨hm, hj⟩ := h
      subst hm
      exact hj.symm

/-- C4 witness: `read_message` decodes `goodRecord` at offset 0 into
`goodMessage` with next offset 35 = (0 + 16) + 19. -/
theorem read_message_offset_witness :
    (35 : Nat) = (0 + 16) + goodMessage.standard_header.msg_length :=
  read_message_offset goodRecord 0 goodMessage 35 rfl

/-! ### C7: non-verbose argument count -/

/-- C7.  For every extended header decoded with the verbose bit clear,
the decoded argument count is zero, regardless of the value of the
argument-count byte in the input. -/
theorem read_extended_header_nonverbose (data : List Nat) (idx : Nat)
    (h : ExtendedHeader) (j : Nat)
    (heq : read_extended_header data idx = some (h, j))
    (hnv : isBitSet h.msg_info 0x01 = false) : h.num_of_args = 0 := by
  simp only [read_extended_header, bind, Option.bind_eq_some] at heq
  obtain ⟨msgInfo, hmi, heq⟩ := heq
  by_cases hb : isBitSet msgInfo 0x01 = true
  · rw [if_pos hb] at heq
    simp only [Option.bind_eq_some] at heq
    obtain ⟨numArgs, hna, heq⟩ := heq
    obtain ⟨appBytes, happ, heq⟩ := heq
    obtain ⟨ctxBytes, hctx, heq⟩ := heq
    simp only [pure, Option.some.injEq, Prod.mk.injEq] at heq
    obtain ⟨hh, _⟩ := heq
    subst hh
    simp only at hnv
    rw [hb] at hnv
    exact absurd hnv (by simp)
  · rw [if_neg hb] at heq
    simp only [pure, Option.bind_eq_some, Option.some.injEq] at heq
    obtain ⟨numArgs, hna, heq⟩ := heq
    obtain ⟨appBytes, happ, heq⟩ := heq
    obtain ⟨ctxBytes, hctx, heq⟩ := heq
    simp only [Option.some.injEq, Prod.mk.injEq] at heq
    obtain ⟨hh, _⟩ := heq
    subst hh
    simp only
    exact hna.symm

/-- C7 witness: on extended-header bytes with MSIN `0x00` (verbose bit
clear) and argument-count byte 7, the decoded argument count is 0. -/
theorem read_extended_header_nonverbose_witness :
    extHeaderNonVerbose.num_of_args = 0 :=
  read_extended_header_nonverbose extBytesNonVerbose 0 extHeaderNonVerbose
    10 rfl rfl

/-! ### C9: EcuId filter reads only the storage header -/

/-- C9.  `filter_ecu_id` accepts exactly when no EcuId filter is set or
the filter value equals the storage header's (NUL-trimmed) ECU string;
and its verdict depends only on the storage header: the standard header
(including its optional `ecu_id` field), the extended header and the
payload can be replaced arbitrarily without changing it. -/
theorem filter_ecu_id_spec (f : Filter) (m : Message) :
    (filter_ecu_id f m = true ↔
      f.ecuId = none ∨ f.ecuId = some m.storage_header.ecu) ∧
    (∀ sh std std2 eh eh2 pl pl2,
      filter_ecu_id f ⟨sh, std, eh, pl⟩ =
        filter_ecu_id f ⟨sh, std2, eh2, pl2⟩) := by
  constructor
  · cases hf : f.ecuId with
    | none => simp [filter_ecu_id, hf]
    | some v => simp [filter_ecu_id, hf]
  · intro sh std std2 eh eh2 pl pl2
    cases hf : f.ecuId <;> simp [filter_ecu_id, hf]

/-! ### C10: payload size by unchecked subtraction -/

/-- C10.  The payload size in `read_message` is `msg_length` minus the
standard-header bytes (minus the 10 extended-header bytes when present)
by unchecked `usize` subtraction: every successfully decoded message
satisfies the precondition `msg_length >= consumed header bytes`, and on
the concrete record `badLengthRecord` — whose headers parse
(`msg_length = 5`, standard-header length 4, extended header present) but
violate it — decoding aborts (arithmetic-underflow panic), producing
neither a message nor an error value. -/
theorem read_message_payload_size :
    (∀ data idx m j, read_message data idx = some (m, j) →
      m.standard_header.length + extHeaderLen m ≤
        m.standard_header.msg_length) ∧
    ((read_standard_header badLengthRecord 16).map
        (fun p => (p.1.msg_length, p.1.length, p.1.has_extended_header)) =
      some (5, 4, true) ∧
     (read_extended_header badLengthRecord 20).isSome = true ∧
     read_message badLengthRecord 0 = none) := by
  constructor
  · intro data idx m j h
    simp only [read_message, bind, Option.bind_eq_some] at h
    obtain ⟨⟨sh, i1⟩, hsh, h⟩ := h
    obtain ⟨⟨std, i2⟩, hstd, h⟩ := h
    split at h
    · simp only [Option.bind_eq_some] at h
      obtain ⟨⟨ext, i3⟩, hext, h⟩ := h
      split at h
      · exact absurd h (by simp)
      · rename_i hlen
        split at h
        · simp only [Option.bind_eq_some] at h
          obtain ⟨pl, hpl, h⟩ := h
          simp only [pure, Option.some.injEq, Prod.mk.injEq] at h
          obtain ⟨hm, _⟩ := h
          subst hm
          simp only [extHeaderLen]
          have hle : ¬ (std.msg_length < std.length + ext.length) := hlen
          omega
        · simp only [Option.bind_eq_some] at h
          obtain ⟨v, hv, h⟩ := h
          obtain ⟨vs, hvs, h⟩ := h
          simp only [pure, Option.some.injEq, Prod.mk.injEq] at h
          obtain ⟨hm, _⟩ := h
          subst hm
          simp only [extHeaderLen]
          have hle : ¬ (std.msg_length < std.length + ext.length) := hlen
          omega
    · rename_i hlen
      split at h
      · exact absurd h (by simp)
      · rename_i hlen2
        simp only [Option.bind_eq_some] at h
        obtain ⟨v, hv, h⟩ := h
        simp only [pure, Option.some.injEq, Prod.mk.injEq] at h
        obtain ⟨hm, _⟩ := h
        subst hm
        simp only [extHeaderLen]
        have hle : ¬ (std.msg_length < std.length) := hlen2
        omega
  · exact ⟨rfl, rfl, rfl⟩

/-- C10 witness: `goodMessage`, decoded from `goodRecord`, satisfies the
precondition (4 + 10 ≤ 19). -/
theorem read_message_payload_size_witness :
    goodMessage.standard_header.length + extHeaderLen goodMessage ≤
      goodMessage.standard_header.msg_length :=
  read_message_payload_size.1 goodRecord 0 goodMessage 35 rfl

/-! ### C8: string and trace-info argument decoding -/

/-- C8 counterexample: on the little-endian buffer
`[3, 0, 0, 0x61, 0]` the decoder reads length 3 and the bytes
`[0, 0x61, 0]`, but exposes `[0x61]`: the LEADING NUL byte is stripped
too, so the claim "trailing NUL bytes stripped (and only trailing NULs)"
fails (it would give `[0, 0x61]`). -/
theorem read_string_strips_leading_nul :
    read_string false [3, 0, 0, 0x61, 0] 0 =
      .value (.string [0x61]) 5 ∧
    trimTrailingNul [0, 0x61, 0] = [0, 0x61] ∧
    Value.string (trimTrailingNul [0, 0x61, 0]) ≠ Value.string [0x61] := by
  refine ⟨rfl, rfl, ?_⟩
  decide

/-- C8 (amended).  For every string-typed (and trace-info) payload
argument, the decoder reads a 16-bit length `L` in the message byte
order, then exactly `L` bytes (advancing by `2 + L`), and exposes the
result as a view of those bytes with NUL bytes stripped from BOTH ends
(leading and trailing), not only trailing ones. -/
theorem read_string_trace_info_spec :
    (∀ bigE data idx v j,
      read_string bigE data idx = .value v j →
      ∃ lb sb, readBytes data idx 2 = some lb ∧
        readBytes data (idx + 2) (u16o bigE lb) = some sb ∧
        j = idx + 2 + u16o bigE lb ∧ v = .string (trimNul sb)) ∧
    (∀ bigE data idx v j,
      read_trace_info bigE data idx = .value v j →
      ∃ lb sb, readBytes data idx 2 = some lb ∧
        readBytes data (idx + 2) (u16o bigE lb) = some sb ∧
        j = idx + 2 + u16o bigE lb ∧ v = .traceData (trimNul sb)) := by
  constructor
  · intro bigE data idx v j h
    simp only [read_string] at h
    split at h
    · exact absurd h (by simp)
    · rename_i lb hlb
      split at h
      · exact absurd h (by simp)
      · rename_i sb hsb
        simp only [ArgResult.value.injEq] at h
        exact ⟨lb, sb, hlb, hsb, h.2.symm, h.1.symm⟩
  · intro bigE data idx v j h
    simp only [read_trace_info] at h
    split at h
    · exact absurd h (by simp)
    · rename_i lb hlb
      split at h
      · exact absurd h (by simp)
      · rename_i sb hsb
        simp only [ArgResult.value.injEq] at h
        exact ⟨lb, sb, hlb, hsb, h.2.symm, h.1.symm⟩

/-- C8 witness: the string reader on `[3, 0, 0, 0x61, 0]` (little-endian
length 3) and the trace-info reader on `[2, 0, 0x61, 0]` (little-endian
length 2). -/
theorem read_string_trace_info_spec_witness :
    (∃ lb sb, readBytes [3, 0, 0, 0x61, 0] 0 2 = some lb ∧
      readBytes [3, 0, 0, 0x61, 0] (0 + 2) (u16o false lb) = some sb ∧
      5 = 0 + 2 + u16o false lb ∧
      Value.string [0x61] = Value.string (trimNul sb)) ∧
    (∃ lb sb, readBytes [2, 0, 0x61, 0] 0 2 = some lb ∧
      readBytes [2, 0, 0x61, 0] (0 + 2) (u16o false lb) = some sb ∧
      4 = 0 + 2 + u16o false lb ∧
      Value.traceData [0x61] = Value.traceData (trimNul sb)) :=
  ⟨read_string_trace_info_spec.1 false [3, 0, 0, 0x61, 0] 0
      (.string [0x61]) 5 rfl,
   read_string_trace_info_spec.2 false [2, 0, 0x61, 0] 0
      (.traceData [0x61]) 4 rfl⟩

/-! ### C1: identifier filters -/

/-- C1 counterexample: with an AppId filter set to `"APP2"`, the message
`msgNoExt` — which has NO extended header — survives both the AppId and
the ContextId filter (the source accepts such messages outright instead
of rejecting them). -/
theorem filter_app_id_no_ext_accepts :
    filter_app_id filterAppOnly msgNoExt = true ∧
    filter_context_id filterAppOnly msgNoExt = true ∧
    msgNoExt.extended_header = none ∧
    filterAppOnly.appId = some [0x41, 0x50, 0x50, 0x32] := by
  refine ⟨rfl, rfl, rfl, rfl⟩

/-- C1 (amended).  A message surviving an EcuId filter set to `v` has
storage-header ECU equal to `v`; a message CARRYING an extended header
that survives an AppId (resp. ContextId) filter set to `v` has app id
(resp. context id) equal to `v`; but a message without an extended
header survives AppId and ContextId filters unconditionally (it is
accepted, not rejected). -/
theorem identifier_filter_spec (f : Filter) (m : Message) (v : List Nat) :
    (f.ecuId = some v → filter_ecu_id f m = true →
      m.storage_header.ecu = v) ∧
    (f.appId = some v → filter_app_id f m = true →
      ∀ eh, m.extended_header = some eh → eh.app_id = v) ∧
    (f.contextId = some v → filter_context_id f m = true →
      ∀ eh, m.extended_header = some eh → eh.context_id = v) ∧
    (m.extended_header = none →
      filter_app_id f m = true ∧ filter_context_id f m = true) := by
  refine ⟨?_, ?_, ?_, ?_⟩
  · intro hf hacc
    simp only [filter_ecu_id, hf, beq_iff_eq] at hacc
    exact hacc.symm
  · intro hf hacc eh heh
    simp only [filter_app_id, heh, hf, beq_iff_eq] at hacc
    exact hacc.symm
  · intro hf hacc eh heh
    simp only [filter_context_id, heh, hf, beq_iff_eq] at hacc
    exact hacc.symm
  · intro heh
    constructor
    · simp only [filter_app_id, heh]
    · simp only [filter_context_id, heh]

/-- C1 witness: `goodMessage` survives `filterAll` (all three identifier
filters set to its own identifiers), and the amended theorem forces each
field to equal the filter value; the no-extended-header clause applies to
`msgNoExt`. -/
theorem identifier_filter_spec_witness :
    goodMessage.storage_header.ecu = [0x45, 0x43, 0x55, 0x31] ∧
    goodExtHeader.app_id = [0x41, 0x50, 0x50, 0x31] ∧
    goodExtHeader.context_id = [0x43, 0x54, 0x58, 0x31] ∧
    (filter_app_id filterAll msgNoExt = true ∧
      filter_context_id filterAll msgNoExt = true) :=
  ⟨(identifier_filter_spec filterAll goodMessage
      [0x45, 0x43, 0x55, 0x31]).1 rfl rfl,
   (identifier_filter_spec filterAll goodMessage
      [0x41, 0x50, 0x50, 0x31]).2.1 rfl rfl goodExtHeader rfl,
   (identifier_filter_spec filterAll goodMessage
      [0x43, 0x54, 0x58, 0x31]).2.2.1 rfl rfl goodExtHeader rfl,
   (identifier_filter_spec filterAll msgNoExt []).2.2.2 rfl⟩

/-! ### C2: no pattern matches -/

/-- C2 counterexample: with a `Patterns` filter configured that matches
no string (`patternNoMatch`) and a message whose single string argument
therefore matches nothing, `find_patterns` returns `some []` — not the
"no match" `none` — and the driver still emits a formatted output line
for the message (it is NOT dropped). -/
theorem find_patterns_empty_not_dropped :
    find_patterns filterPatternsOnly msgOneString = some [] ∧
    find_patterns filterPatternsOnly msgOneString ≠ none ∧
    (process_message filterPatternsOnly (some outputEcu)
        msgOneString).isSome = true := by
  refine ⟨rfl, by decide, rfl⟩

/-- C2 (amended).  When a `Patterns` filter is configured and no
string-typed payload argument of a message matches any pattern, the
pattern scan returns the EMPTY capture set `some []` (distinct from the
`none` used when no `Patterns` filter is configured), and the message is
NOT dropped: if it passes the identifier filters and an output
descriptor is configured, it still produces an output line. -/
theorem find_patterns_no_match_spec (f : Filter) (pat : Pattern)
    (o : Output) (m : Message) (hf : f.patterns = some pat)
    (hnm : ∀ s, Value.string s ∈ m.payload → pat.captures s = none)
    (hecu : filter_ecu_id f m = true) (happ : filter_app_id f m = true)
    (hctx : filter_context_id f m = true) :
    find_patterns f m = some [] ∧
    process_message f (some o) m =
      some (emitLine o.delimiter o.fields m []) := by
  have hfp : find_patterns f m = some [] := by
    simp only [find_patterns, hf]
    exact findPatternsGo_no_match pat m.payload hnm
  refine ⟨hfp, ?_⟩
  simp only [process_message, hecu, happ, hctx, hfp]
  rfl

/-- C2 witness: the amended theorem applied to `filterPatternsOnly` and
`msgOneString` with the `,`-delimited `Ecu` output. -/
theorem find_patterns_no_match_spec_witness :
    find_patterns filterPatternsOnly msgOneString = some [] ∧
    process_message filterPatternsOnly (some outputEcu) msgOneString =
      some (emitLine outputEcu.delimiter outputEcu.fields msgOneString
        []) :=
  find_patterns_no_match_spec filterPatternsOnly patternNoMatch outputEcu
    msgOneString rfl (fun _ _ => rfl) rfl rfl rfl

/-! ### C3: trailing garbage -/

/-- C3.  On `goodRecord` alone, iteration produces the one decoded
message and terminates cleanly; but with 7 bytes of trailing garbage
appended, `TraceDataIter::next` re-enters `read_message` (the index is
still below the buffer length), the storage-header magic does not match,
and the code panics (`panic!` in `read_storage_header`) instead of
terminating cleanly. -/
theorem iterate_trailing_garbage_panics :
    iterateMessages goodRecord 0 50 = some [goodMessage] ∧
    iterateMessages (goodRecord ++ garbageTail) 0 50 = none ∧
    read_storage_header (goodRecord ++ garbageTail) 35 = none := by
  refine ⟨rfl, rfl, rfl⟩

/-! ### C5: Time and Timestamp output fields -/

/-- C5.  The projector renders the `Time` and `Timestamp` output fields
as the literal strings `"T"` and `"TS"` (bytes `[0x54]` and
`[0x54, 0x53]`), ignoring the message's actual storage timestamp
(`sec = 123`, `usec = 456`) and standard-header timestamp (`100`): the
emitted line for fields `[Time, Timestamp]` with delimiter `,` is
`"T,TS"` whatever the timestamps are. -/
theorem time_timestamp_rendered_as_literals :
    emitLine 0x2C [.time, .timestamp] msgTimed [] =
      [0x54, 0x2C, 0x54, 0x53] ∧
    msgTimed.storage_header.timestamp_sec = 123 ∧
    msgTimed.storage_header.timestamp_usec = 456 ∧
    msgTimed.standard_header.timestamp = some 100 := by
  refine ⟨rfl, rfl, rfl, rfl⟩

/-! ### C6: delimiters in the emitted line -/

/-- C6 counterexample: with fields `[Ecu, Payload]` and a message whose
payload holds no string argument, the `Payload` field contributes no
renderings (and hence no internal delimiters), `out_string` is
`"ECU1,"`, and `trim_end_matches` leaves `"ECU1"`: the emitted line
contains 0 delimiter characters, not `len(fields) - 1 = 1`. -/
theorem emit_line_delimiter_count_fails :
    fieldItems .payload msgEcuNoStrings [] = [] ∧
    (emitLine 0x2C [.ecu, .payload] msgEcuNoStrings []).count 0x2C = 0 ∧
    ([OutputField.ecu, .payload].length - 1 = 1) ∧
    ¬ ((emitLine 0x2C [.ecu, .payload] msgEcuNoStrings []).count 0x2C =
        [OutputField.ecu, .payload].length - 1) := by
  refine ⟨rfl, rfl, rfl, by decide⟩

theorem count_flatten_append_delim (d : Nat) (items : List (List Nat))
    (h : ∀ it ∈ items, d ∉ it) :
    ((items.map (fun it => it ++ [d])).flatten).count d = items.length := by
  induction items with
  | nil => rfl
  | cons it rest ih =>
    have hd : d ∉ it := h it (List.mem_cons_self _ _)
    simp only [List.map_cons, List.flatten_cons, List.count_append,
      List.append_assoc]
    rw [ih (fun x hx => h x (List.mem_cons_of_mem _ hx))]
    simp [List.count_eq_zero_of_not_mem hd, List.count_singleton]
    omega

theorem trimEndMatches_concat (d : Nat) (X last : List Nat)
    (hne : last ≠ []) (hd : d ∉ last) :
    trimEndMatches d (X ++ (last ++ [d])) = X ++ last := by
  obtain ⟨c, t2, hrev⟩ : ∃ c t2, last.reverse = c :: t2 := by
    cases hr : last.reverse with
    | nil => exact absurd (List.reverse_eq_nil_iff.mp hr) hne
    | cons c t2 => exact ⟨c, t2, rfl⟩
  have hcmem : c ∈ last := by
    rw [← List.mem_reverse, hrev]
    exact List.mem_cons_self _ _
  have hcd : (c == d) = false := by
    simp only [beq_eq_false_iff_ne, ne_eq]
    intro hcd
    exact hd (hcd ▸ hcmem)
  have hstep : (X ++ (last ++ [d])).reverse =
      d :: (last.reverse ++ X.reverse) := by
    simp [List.reverse_append]
  rw [trimEndMatches, hstep]
  rw [List.dropWhile_cons]
  simp only [beq_self_eq_true, if_true]
  rw [hrev]
  simp only [List.cons_append, List.dropWhile_cons, hcd,
    Bool.false_eq_true, if_false]
  rw [show c :: (t2 ++ X.reverse) = (c :: t2) ++ X.reverse from rfl]
  rw [List.reverse_append, ← hrev]
  simp [List.reverse_reverse]

theorem flatten_map_flatten {α : Type} (g : α → List (List Nat))
    (hf : List Nat → List Nat) (l : List α) :
    (l.map (fun f => ((g f).map hf).flatten)).flatten =
      (((l.map g).flatten).map hf).flatten := by
  induction l with
  | nil => rfl
  | cons x xs ih => simp [ih]

theorem outString_as_items (d : Nat) (fields : List OutputField)
    (m : Message) (caps : List Caps) :
    outString d fields m caps =
      ((((fields.map (fun f => fieldItems f m caps)).flatten).map
        (fun it => it ++ [d])).flatten) := by
  simp only [outString]
  exact flatten_map_flatten (fun f => fieldItems f m caps)
    (fun it => it ++ [d]) fields

/-- C6 (amended).  All trailing delimiter characters are trimmed before
emission (`trim_end_matches` strips every trailing occurrence, not
exactly one).  Provided the field list is non-empty and every field
contributes at least one rendering, each non-empty and free of the
delimiter character, exactly one trailing delimiter is in fact trimmed
(the line is `out_string` minus its final character) and the line
contains exactly (total number of renderings) - 1 delimiter characters —
that is, `len(fields) - 1` delimiters between field renderings plus one
per extra subfield rendering inside a field. -/
theorem emit_line_delimiter_count (d : Nat) (fields : List OutputField)
    (m : Message) (caps : List Caps) (hne : fields ≠ [])
    (hitems : ∀ f ∈ fields, fieldItems f m caps ≠ [])
    (hclean : ∀ f ∈ fields, ∀ it ∈ fieldItems f m caps,
      it ≠ [] ∧ d ∉ it) :
    emitLine d fields m caps = (outString d fields m caps).dropLast ∧
    (emitLine d fields m caps).count d =
      ((fields.map (fun f => (fieldItems f m caps).length)).sum) - 1 := by
  have hall : ∀ it ∈ (fields.map (fun f => fieldItems f m caps)).flatten,
      it ≠ [] ∧ d ∉ it := by
    intro it hit
    rw [List.mem_flatten] at hit
    obtain ⟨l, hl, hitl⟩ := hit
    rw [List.mem_map] at hl
    obtain ⟨f, hf, rfl⟩ := hl
    exact hclean f hf it hitl
  have hallne : (fields.map (fun f => fieldItems f m caps)).flatten ≠ [] := by
    cases fields with
    | nil => exact absurd rfl hne
    | cons f fs =>
      simp only [List.map_cons, List.flatten_cons, ne_eq,
        List.append_eq_nil]
      intro hcon
      exact hitems f (List.mem_cons_self _ _) hcon.1
  obtain ⟨init, last, hsplit⟩ :=
    ((fields.map (fun f => fieldItems f m caps)).flatten).eq_nil_or_concat
      |>.resolve_left hallne
  rw [List.concat_eq_append] at hsplit
  have hlastmem : last ∈ (fields.map (fun f => fieldItems f m caps)).flatten
      := by
    rw [hsplit]
    exact List.mem_append_right _ (List.mem_cons_self _ _)
  have hlast := hall last hlastmem
  have hinit : ∀ it ∈ init, d ∉ it := by
    intro it hit
    exact (hall it (by rw [hsplit]; exact List.mem_append_left _ hit)).2
  have hS : outString d fields m caps =
      ((init.map (fun it => it ++ [d])).flatten) ++ (last ++ [d]) := by
    rw [outString_as_items, hsplit]
    simp
  constructor
  · rw [emitLine, hS,
      trimEndMatches_concat d _ last hlast.1 hlast.2]
    rw [← List.append_assoc]
    rw [List.dropLast_concat]
  · rw [emitLine, hS,
      trimEndMatches_concat d _ last hlast.1 hlast.2]
    have hsum : (fields.map (fun f => (fieldItems f m caps).length)).sum =
        init.length + 1 := by
      have hlen : ((fields.map (fun f => fieldItems f m caps)).flatten).length
          = init.length + 1 := by
        rw [hsplit]
        simp
      rw [List.length_flatten, List.map_map] at hlen
      exact hlen
    rw [hsum, List.count_append,
      count_flatten_append_delim d init hinit,
      List.count_eq_zero_of_not_mem hlast.2]
    omega

/-- C6 witness: fields `[Ecu, App]` on `goodMessage` (renderings `"none"`
and `"APP1"`, both non-empty and free of `,`): exactly one trailing
delimiter is trimmed and the line has 2 - 1 = 1 delimiter. -/
theorem emit_line_delimiter_count_witness :
    emitLine 0x2C [.ecu, .app] goodMessage [] =
      (outString 0x2C [.ecu, .app] goodMessage []).dropLast ∧
    (emitLine 0x2C [.ecu, .app] goodMessage []).count 0x2C =
      (([OutputField.ecu, .app].map
        (fun f => (fieldItems f goodMessage []).length)).sum) - 1 :=
  emit_line_delimiter_count 0x2C [.ecu, .app] goodMessage [] (by decide)
    (by decide) (by decide)

end DltKraken
